import Mathlib

/-!
Verification of `mymemcache-top` (cmd/memtop/main.go).

Shallow embedding conventions:
* Go strings are modelled as `List Char` (abbreviated `Str`); `strings.Fields`
  and `strings.Join` are modelled over character lists.
* Go `float64` values are modelled as `ℚ` (exact rational arithmetic); the
  numeric value parser models the finite-decimal fragment of
  `strconv.ParseFloat` (optional sign, decimal digits with an optional
  fractional part and an optional decimal exponent); the hexadecimal,
  underscore, infinity and NaN forms of Go's parser are outside this model.
* Go maps (`map[string]float64`, `map[string]string`) are modelled as
  functions `Str → Option α`; a `nil`-able Go pointer/map becomes `Option`.
-/

namespace Memtop

/-- Go strings, modelled as lists of characters. -/
abbrev Str := List Char

/-- Whitespace test used by `strings.Fields` (`unicode.IsSpace`), restricted to
the Latin-1 space characters; wider Unicode space classes are not modelled. -/
def isSpaceChar (c : Char) : Bool :=
  c = ' ' || c = '\t' || c = '\n' || c = Char.ofNat 11 || c = Char.ofNat 12 ||
  c = '\r' || c = Char.ofNat 0x85 || c = Char.ofNat 0xA0

/-- `strings.Fields`: split a string around runs of whitespace, dropping
empty fields. -/
def fields : Str → List Str
  | [] => []
  | c :: cs =>
    if isSpaceChar c then fields cs
    else
      match cs, fields cs with
      | [], _ => [[c]]
      | c2 :: _, rest =>
        if isSpaceChar c2 then [c] :: rest
        else
          match rest with
          | [] => [[c]]
          | w :: ws => (c :: w) :: ws

/-- `strings.Join(words, " ")`: rejoin fields with single spaces. -/
def joinSpace : List Str → Str
  | [] => []
  | [w] => w
  | w :: ws => w ++ ' ' :: joinSpace ws

/-- ASCII decimal-digit test (`0`–`9`). -/
def isDigitChar (c : Char) : Bool :=
  '0' ≤ c && c ≤ '9'

/-- Numeric value of a list of decimal digits, most significant first. -/
def digitsToNat (ds : Str) : ℕ :=
  ds.foldl (fun n c => 10 * n + (c.toNat - '0'.toNat)) 0

/-- The finite-decimal fragment of `strconv.ParseFloat`: an optional sign, a
mantissa made of decimal digits with an optional fractional part (at least one
digit overall), and an optional decimal exponent.  Returns the exact rational
value on success and `none` on any syntax violation. -/
def parseDecimal (s : Str) : Option ℚ :=
  let signRest : ℚ × Str :=
    match s with
    | '+' :: r => (1, r)
    | '-' :: r => (-1, r)
    | r => (1, r)
  let sgn := signRest.1
  let s1 := signRest.2
  let ip := s1.takeWhile isDigitChar
  let s2 := s1.dropWhile isDigitChar
  let fracRest : Str × Str :=
    match s2 with
    | '.' :: r => (r.takeWhile isDigitChar, r.dropWhile isDigitChar)
    | r => ([], r)
  let fp := fracRest.1
  let s3 := fracRest.2
  if ip.isEmpty && fp.isEmpty then none
  else
    let mant : ℚ := sgn * ((digitsToNat ip : ℚ) + (digitsToNat fp : ℚ) / (10 : ℚ) ^ fp.length)
    match s3 with
    | [] => some mant
    | e :: r =>
      if e = 'e' || e = 'E' then
        let esignRest : ℤ × Str :=
          match r with
          | '+' :: rr => (1, rr)
          | '-' :: rr => (-1, rr)
          | rr => (1, rr)
        let ed := esignRest.2.takeWhile isDigitChar
        let r2 := esignRest.2.dropWhile isDigitChar
        if ed.isEmpty || !r2.isEmpty then none
        else some (mant * (10 : ℚ) ^ (esignRest.1 * (digitsToNat ed : ℤ)))
      else none

/-- Go maps with string keys, modelled as lookup functions. -/
abbrev StrMap (α : Type) := Str → Option α

/-- The empty map (`make(map[string]...)`). -/
def emptyMap {α : Type} : StrMap α := fun _ => none

/-- Map update `m[k] = v`. -/
def updateMap {α : Type} (m : StrMap α) (k : Str) (v : α) : StrMap α :=
  fun k' => if k' = k then some v else m k'

/-- `statsSnapshot`: one reading from Memcached.  `Timestamp` is in seconds,
`Values` holds the numerically parseable stats, `Raw` every stat's original
string. -/
structure statsSnapshot where
  Timestamp : ℚ
  Values : StrMap ℚ
  Raw : StrMap Str

/-- The literal data-line marker `"STAT"`. -/
def statMarker : Str := ['S', 'T', 'A', 'T']

/-- The literal terminator line `"END"`. -/
def endMarker : Str := ['E', 'N', 'D']

/-- The acceptance test and decomposition of one response line in
`fetchStats`: the line is whitespace-tokenized; with fewer than three tokens
or a first token other than `"STAT"` the line is rejected (`none`); otherwise
the second token is the key and the remaining tokens, rejoined with single
spaces, are the value string. -/
def acceptLine (line : Str) : Option (Str × Str) :=
  match fields line with
  | m :: k :: v1 :: vr => if m = statMarker then some (k, joinSpace (v1 :: vr)) else none
  | _ => none

/-- The scanner loop of `fetchStats`: process response lines in order,
stopping at the `"END"` terminator; an accepted line stores its value string
in `Raw` under its key and, when the value parses as a finite decimal, the
parsed number in `Values`; rejected lines are skipped. -/
def processLines : List Str → StrMap ℚ × StrMap Str → StrMap ℚ × StrMap Str
  | [], st => st
  | line :: rest, (values, raw) =>
    if line = endMarker then (values, raw)
    else
      match acceptLine line with
      | none => processLines rest (values, raw)
      | some (k, v) =>
        processLines rest
          ((match parseDecimal v with
            | some q => updateMap values k q
            | none => values),
           updateMap raw k v)

/-- The snapshot `fetchStats` constructs from the response lines it read
(the network transport itself is outside the model; `ts` is the sampling
instant `time.Now()`). -/
def fetchStatsModel (ts : ℚ) (lines : List Str) : statsSnapshot :=
  let st := processLines lines (emptyMap, emptyMap)
  { Timestamp := ts, Values := st.1, Raw := st.2 }

/-- `calculateRates`: compare two (nullable) snapshots and return per-second
deltas, clamping negative deltas to zero; the table is empty when either
snapshot is `nil` or the elapsed time is not strictly positive. -/
def calculateRates (curr prev : Option statsSnapshot) : StrMap ℚ :=
  match curr, prev with
  | some c, some p =>
    if c.Timestamp - p.Timestamp ≤ 0 then emptyMap
    else
      fun key =>
        match c.Values key, p.Values key with
        | some currentVal, some prevVal =>
          some ((if currentVal - prevVal < 0 then 0 else currentVal - prevVal) /
                (c.Timestamp - p.Timestamp))
        | _, _ => none
  | _, _ => emptyMap

/-- The mutable state of the event loop in `main`: latest snapshot, previous
snapshot (the rate baseline), latest rate table and the last sampling error. -/
structure LoopState where
  currentStats : Option statsSnapshot
  prevStats : Option statsSnapshot
  rates : StrMap ℚ
  lastErr : Option Str

/-- A keyboard event, as classified by `main`'s event switch: the escape key,
the interrupt key, or a printable rune. -/
inductive KeyInput where
  | escape
  | ctrlC
  | rune (c : Char)

/-- One occurrence the event loop can wake up on: a timer tick carrying the
sampler's result, a keyboard event, or a terminal resize. -/
inductive Event where
  | tick (res : Except Str statsSnapshot)
  | key (k : KeyInput)
  | resize

/-- Effect of processing one occurrence: either the loop terminates, or it
continues with a new state, `rendered` recording whether `drawScreen` was
invoked for this occurrence. -/
inductive StepResult where
  | quit
  | cont (s : LoopState) (rendered : Bool)

/-- The body of `main`'s select/switch: the state transition and render
decision for one occurrence. -/
def handleEvent : Event → LoopState → StepResult
  | Event.tick res, s =>
    match res with
    | Except.error e => StepResult.cont { s with lastErr := some e } true
    | Except.ok snap =>
      StepResult.cont
        { currentStats := some snap
          prevStats := some snap
          rates :=
            match s.prevStats with
            | some p => calculateRates (some snap) (some p)
            | none => emptyMap
          lastErr := none } true
  | Event.key k, s =>
    match k with
    | KeyInput.escape => StepResult.quit
    | KeyInput.ctrlC => StepResult.quit
    | KeyInput.rune c =>
      if c = 'q' ∨ c = 'Q' then StepResult.quit
      else if c = 'r' ∨ c = 'R' then
        StepResult.cont { s with prevStats := none, rates := emptyMap } true
      else StepResult.cont s false
  | Event.resize, s => StepResult.cont s true

/-- Decimal rendering of a natural number (`%d`). -/
def natStr (n : ℕ) : Str :=
  Nat.toDigits 10 n

/-- Zero-pad a digit string on the left to width `w` (`%0wd`). -/
def padZeros (w : ℕ) (s : Str) : Str :=
  List.replicate (w - s.length) '0' ++ s

/-- `%02d`: decimal rendering zero-padded to two characters. -/
def pad2 (n : ℕ) : Str :=
  padZeros 2 (natStr n)

/-- Round to the nearest integer, ties to even — the rounding `fmt`'s `%.Nf`
verbs apply to the exact value being printed. -/
def roundHalfEven (q : ℚ) : ℤ :=
  if q - ⌊q⌋ < 1 / 2 then ⌊q⌋
  else if 1 / 2 < q - ⌊q⌋ then ⌊q⌋ + 1
  else if ⌊q⌋ % 2 = 0 then ⌊q⌋ else ⌊q⌋ + 1

/-- Round to the nearest integer, ties away from zero, for non-negative
inputs — `math.Round` on the non-negative values `formatUptime` feeds it. -/
def roundHalfAway (q : ℚ) : ℤ :=
  ⌊q + 1 / 2⌋

/-- Fixed-point rendering `%.Nf` of a non-negative value with `p` digits
after the decimal point (no point at all when `p = 0`). -/
def formatFixed (q : ℚ) (p : ℕ) : Str :=
  let n := (roundHalfEven (q * 10 ^ p)).toNat
  if p = 0 then natStr n
  else natStr (n / 10 ^ p) ++ '.' :: padZeros p (natStr (n % 10 ^ p))

/-- The unit names of `formatBytes`, indexed by how many times the value was
divided by 1024. -/
def unitName : ℕ → Str
  | 0 => ['B']
  | 1 => ['K', 'B']
  | 2 => ['M', 'B']
  | 3 => ['G', 'B']
  | 4 => ['T', 'B']
  | _ => ['P', 'B']

/-- The scaling loop of `formatBytes`: divide by 1024 while the value is at
least 1024 and divisions remain (at most 5, one per unit above bytes),
returning the scaled value and the number of divisions performed. -/
def scaleBytes : ℚ → ℕ → ℚ × ℕ
  | b, 0 => (b, 0)
  | b, fuel + 1 =>
    if 1024 ≤ b then
      let p := scaleBytes (b / 1024) fuel
      (p.1, p.2 + 1)
    else (b, 0)

/-- `formatBytes`: clamp negative input to zero, scale into the largest
fitting unit, and render with no decimals for plain bytes and one decimal
for every scaled unit. -/
def formatBytes (b : ℚ) : Str :=
  let b0 := if b < 0 then 0 else b
  let p := scaleBytes b0 5
  formatFixed p.1 (if p.2 = 0 then 0 else 1) ++ ' ' :: unitName p.2

/-- `formatBytesRate`: `formatBytes` with a `/s` suffix. -/
def formatBytesRate (bps : ℚ) : Str :=
  formatBytes bps ++ ['/', 's']

/-- `time.Duration(seconds * float64(time.Second))` in `formatUptime`: the
uptime in whole nanoseconds (truncated toward zero; the input is positive
wherever this is used). -/
def uptimeNs (q : ℚ) : ℕ :=
  (⌊q * 1000000000⌋).toNat

/-- The whole-day component of `formatUptime`. -/
def uptimeDays (q : ℚ) : ℕ :=
  uptimeNs q / 86400000000000

/-- Nanoseconds remaining after removing whole days. -/
def uptimeRest1 (q : ℚ) : ℕ :=
  uptimeNs q - uptimeDays q * 86400000000000

/-- The hour component of `formatUptime`. -/
def uptimeHours (q : ℚ) : ℕ :=
  uptimeRest1 q / 3600000000000

/-- Nanoseconds remaining after removing whole days and hours. -/
def uptimeRest2 (q : ℚ) : ℕ :=
  uptimeRest1 q - uptimeHours q * 3600000000000

/-- The minute component of `formatUptime`. -/
def uptimeMinutes (q : ℚ) : ℕ :=
  uptimeRest2 q / 60000000000

/-- Nanoseconds remaining after removing whole days, hours and minutes. -/
def uptimeRest3 (q : ℚ) : ℕ :=
  uptimeRest2 q - uptimeMinutes q * 60000000000

/-- The second component of `formatUptime`: the leftover sub-minute duration
in seconds, rounded by `math.Round`. -/
def uptimeSeconds (q : ℚ) : ℕ :=
  (roundHalfAway ((uptimeRest3 q : ℚ) / 1000000000)).toNat

/-- `formatUptime`: a fixed zero string for non-positive input, otherwise
`HHh MMm SSs` zero-padded to two digits each, with an unpadded `Dd `
component in front exactly when at least one whole day elapsed. -/
def formatUptime (q : ℚ) : Str :=
  if q ≤ 0 then ['0', 's']
  else
    (if 0 < uptimeDays q then natStr (uptimeDays q) ++ ['d', ' '] else []) ++
    pad2 (uptimeHours q) ++ ['h', ' '] ++
    pad2 (uptimeMinutes q) ++ ['m', ' '] ++
    pad2 (uptimeSeconds q) ++ ['s']

/-- One `screen.SetContent` cell write issued by `drawText`: a column and a
row on the terminal surface. -/
structure CellWrite where
  col : ℤ
  row : ℤ
deriving DecidableEq

/-- The character loop of `drawText` (`for i, r := range text`): `pos` is the
start column plus the UTF-8 byte offset of the current rune; the loop breaks
at the right edge of the surface. -/
def drawTextAux (width y : ℤ) : ℤ → Str → List CellWrite
  | _, [] => []
  | pos, c :: cs =>
    if width ≤ pos then []
    else ⟨pos, y⟩ :: drawTextAux width y (pos + c.utf8Size) cs

/-- `drawText`: the list of cell writes performed when placing `text` at
column `x`, row `y` on a surface of the given width and height. -/
def drawText (width height x y : ℤ) (text : Str) : List CellWrite :=
  if y < 0 then []
  else if height ≤ y then []
  else drawTextAux width y x text

/-- Specification-side characterization for the duplicate-key behaviour of the
scanner loop: the value string of the last accepted line carrying key `k`
among the lines before the `"END"` terminator, if any. -/
def lastValueFor : List Str → Str → Option Str
  | [], _ => none
  | line :: rest, k =>
    if line = endMarker then none
    else
      match lastValueFor rest k with
      | some v => some v
      | none =>
        match acceptLine line with
        | some kv => if kv.1 = k then some kv.2 else none
        | none => none

/-- A concrete snapshot used to instantiate universally quantified theorems:
taken at time 0 with the single numeric stat `a = 1`. -/
def snapA : statsSnapshot :=
  { Timestamp := 0
    Values := updateMap emptyMap ['a'] 1
    Raw := updateMap emptyMap ['a'] ['1'] }

/-- A concrete snapshot used to instantiate universally quantified theorems:
taken at time 2 with the single numeric stat `a = 5`. -/
def snapB : statsSnapshot :=
  { Timestamp := 2
    Values := updateMap emptyMap ['a'] 5
    Raw := updateMap emptyMap ['a'] ['5'] }

/-- A concrete loop state used to instantiate universally quantified
theorems: latest snapshot, a rate baseline, a non-empty rate table and a
stored error are all present. -/
def stateA : LoopState :=
  { currentStats := some snapA
    prevStats := some snapB
    rates := updateMap emptyMap ['a'] 2
    lastErr := some ['e'] }

/-!
## Theorems
-/

/-- C1: for every pair of snapshots, `calculateRates` returns an empty table
when either snapshot is absent or the elapsed time is not strictly positive,
and otherwise maps every key present in both snapshots' numeric value maps to
`(current − previous) / elapsed`, with the delta clamped to 0 before the
division whenever the current value is below the previous one. -/
theorem calculateRates_spec (curr prev : Option statsSnapshot) :
    ((curr = none ∨ prev = none) → ∀ k, calculateRates curr prev k = none) ∧
    (∀ c p, curr = some c → prev = some p → c.Timestamp - p.Timestamp ≤ 0 →
      ∀ k, calculateRates curr prev k = none) ∧
    (∀ c p k currentVal prevVal, curr = some c → prev = some p →
      0 < c.Timestamp - p.Timestamp →
      c.Values k = some currentVal → p.Values k = some prevVal →
      calculateRates curr prev k =
        some ((if currentVal - prevVal < 0 then 0 else currentVal - prevVal) /
              (c.Timestamp - p.Timestamp))) := by
  refine ⟨?_, ?_, ?_⟩
  · rintro (rfl | rfl) k
    · cases prev <;> rfl
    · cases curr <;> rfl
  · rintro c p rfl rfl hle k
    simp only [calculateRates, if_pos hle]
    rfl
  · rintro c p k currentVal prevVal rfl rfl hlt hc hp
    simp only [calculateRates, if_neg (not_le.mpr hlt), hc, hp]

/-- Witness for C1 at concrete snapshots: elapsed 2 seconds, stat `a` moved
from 1 to 5, rate 2. -/
theorem calculateRates_spec_witness :
    calculateRates (some snapB) (some snapA) ['a'] = some 2 := by
  have h := (calculateRates_spec (some snapB) (some snapA)).2.2 snapB snapA ['a'] 5 1
    rfl rfl (by norm_num [snapA, snapB]) (by with_unfolding_all rfl)
    (by with_unfolding_all rfl)
  rw [h]
  norm_num [snapA, snapB]

/-- C2 counterexample: with the same snapshot on both sides (elapsed time 0)
the key `a` is present in both snapshots' numeric value maps and yet has no
entry in the rate table, so the table does not contain an entry exactly for
the keys present in both maps. -/
theorem rateTable_keys_counterexample :
    ¬ ((calculateRates (some snapA) (some snapA) ['a']).isSome ↔
        ((snapA.Values ['a']).isSome ∧ (snapA.Values ['a']).isSome)) := by
  intro hiff
  have hval : (snapA.Values ['a']).isSome := by with_unfolding_all rfl
  have hnone : calculateRates (some snapA) (some snapA) ['a'] = none := by
    with_unfolding_all rfl
  have := hiff.mpr ⟨hval, hval⟩
  rw [hnone] at this
  exact Bool.noConfusion this

/-- C2 amended: every entry of the rate table belongs to a key present in
both snapshots' numeric value maps (so a key present in only one snapshot's
numeric map never appears, whatever the raw maps hold), the table contains an
entry exactly for those keys whenever both snapshots are present and the
elapsed time is strictly positive, and every stored value is non-negative. -/
theorem rateTable_keys_amended (curr prev : Option statsSnapshot) (k : Str) :
    (∀ r, calculateRates curr prev k = some r →
      (∃ c, curr = some c ∧ (c.Values k).isSome) ∧
      (∃ p, prev = some p ∧ (p.Values k).isSome) ∧ 0 ≤ r) ∧
    (∀ c p, curr = some c → prev = some p → 0 < c.Timestamp - p.Timestamp →
      ((calculateRates curr prev k).isSome ↔
        ((c.Values k).isSome ∧ (p.Values k).isSome))) := by
  constructor
  · intro r hr
    match curr, prev with
    | none, prev => simp [calculateRates, emptyMap] at hr
    | some c, none => simp [calculateRates, emptyMap] at hr
    | some c, some p =>
      by_cases hle : c.Timestamp - p.Timestamp ≤ 0
      · simp only [calculateRates, if_pos hle, emptyMap] at hr
        exact absurd hr (Option.noConfusion)
      · simp only [calculateRates, if_neg hle] at hr
        cases hcv : c.Values k with
        | none => rw [hcv] at hr; exact absurd hr (Option.noConfusion)
        | some currentVal =>
          cases hpv : p.Values k with
          | none => rw [hcv, hpv] at hr; exact absurd hr (Option.noConfusion)
          | some prevVal =>
            rw [hcv, hpv] at hr
            refine ⟨⟨c, rfl, by rw [hcv]; rfl⟩, ⟨p, rfl, by rw [hpv]; rfl⟩, ?_⟩
            have hr' : ((if currentVal - prevVal < 0 then 0 else currentVal - prevVal) /
                (c.Timestamp - p.Timestamp)) = r := by
              exact Option.some.inj hr
            rw [← hr']
            have helapsed : 0 < c.Timestamp - p.Timestamp := lt_of_not_le hle
            apply div_nonneg _ (le_of_lt helapsed)
            by_cases hneg : currentVal - prevVal < 0
            · rw [if_pos hneg]
            · rw [if_neg hneg]; exact le_of_not_lt hneg
  · rintro c p rfl rfl hlt
    simp only [calculateRates, if_neg (not_le.mpr hlt)]
    cases hcv : c.Values k <;> cases hpv : p.Values k <;> simp

/-- Witness for the amended C2 at concrete snapshots with positive elapsed
time. -/
theorem rateTable_keys_amended_witness :
    (calculateRates (some snapB) (some snapA) ['a']).isSome ↔
      ((snapB.Values ['a']).isSome ∧ (snapA.Values ['a']).isSome) :=
  (rateTable_keys_amended (some snapB) (some snapA) ['a']).2 snapB snapA rfl rfl
    (by norm_num [snapA, snapB])

/-- C3: a response line contributes to the snapshot exactly when, after
whitespace tokenization, it has at least three tokens whose first is the
literal `"STAT"` marker; for such a line the second token is the key, the
remaining tokens rejoined with single spaces are the value string, the value
string always lands in the raw map, and it lands in the numeric map exactly
when it parses as a finite decimal; rejected lines are skipped with no other
effect. -/
theorem fetchStats_line_spec (line : Str) :
    ((acceptLine line).isSome ↔
      (3 ≤ (fields line).length ∧ (fields line).head? = some statMarker)) ∧
    (∀ k v, acceptLine line = some (k, v) →
      ((fields line).drop 1).head? = some k ∧ v = joinSpace ((fields line).drop 2)) ∧
    (∀ rest values raw k v, line ≠ endMarker → acceptLine line = some (k, v) →
      processLines (line :: rest) (values, raw) =
        processLines rest
          ((match parseDecimal v with
            | some q => updateMap values k q
            | none => values),
           updateMap raw k v)) ∧
    (∀ rest st, line ≠ endMarker → acceptLine line = none →
      processLines (line :: rest) st = processLines rest st) ∧
    (∀ k v, line ≠ endMarker → acceptLine line = some (k, v) →
      ((processLines [line] (emptyMap, emptyMap)).2 k = some v ∧
       (processLines [line] (emptyMap, emptyMap)).1 k = parseDecimal v)) := by
  refine ⟨?_, ?_, ?_, ?_, ?_⟩
  · match hf : fields line with
    | [] => simp [acceptLine, hf]
    | [m] => simp [acceptLine, hf]
    | [m, k] => simp [acceptLine, hf]
    | m :: k :: v1 :: vr =>
      by_cases hm : m = statMarker
      · simp [acceptLine, hf, hm]
      · simp [acceptLine, hf, hm]
  · intro k v hacc
    match hf : fields line with
    | [] => simp [acceptLine, hf] at hacc
    | [m] => simp [acceptLine, hf] at hacc
    | [m, k'] => simp [acceptLine, hf] at hacc
    | m :: k' :: v1 :: vr =>
      by_cases hm : m = statMarker
      · simp only [acceptLine, hf, if_pos hm, Option.some.injEq, Prod.mk.injEq] at hacc
        simp [hf, hacc.1, hacc.2]
      · simp [acceptLine, hf, hm] at hacc
  · intro rest values raw k v hne hacc
    simp only [processLines, if_neg hne, hacc]
  · intro rest st hne hacc
    obtain ⟨values, raw⟩ := st
    simp only [processLines, if_neg hne, hacc]
  · intro k v hne hacc
    simp only [processLines, if_neg hne, hacc]
    cases hp : parseDecimal v with
    | some q => simp [updateMap]
    | none => simp [updateMap, emptyMap]

/-- Witness for C3 at the concrete line `STAT version 1.6.21 x`: accepted,
key `version`, multi-word value preserved in the raw map, absent from the
numeric map since it is not a finite decimal. -/
theorem fetchStats_line_spec_witness :
    (processLines ["STAT version 1.6.21 x".toList] (emptyMap, emptyMap)).2
        "version".toList = some "1.6.21 x".toList ∧
    (processLines ["STAT version 1.6.21 x".toList] (emptyMap, emptyMap)).1
        "version".toList = parseDecimal "1.6.21 x".toList :=
  (fetchStats_line_spec "STAT version 1.6.21 x".toList).2.2.2.2
    "version".toList "1.6.21 x".toList (by decide) (by with_unfolding_all rfl)

/-- Helper for C4: the scanner loop preserves the invariant that every key of
the numeric map is also a key of the raw map. -/
theorem processLines_values_sub_raw (lines : List Str) :
    ∀ values raw, (∀ k : Str, (values k).isSome → (raw k).isSome) →
    ∀ k : Str, ((processLines lines (values, raw)).1 k).isSome →
      ((processLines lines (values, raw)).2 k).isSome := by
  induction lines with
  | nil => intro values raw h k; exact h k
  | cons line rest ih =>
    intro values raw h k
    by_cases hend : line = endMarker
    · simp only [processLines, if_pos hend]
      exact h k
    · cases hacc : acceptLine line with
      | none =>
        simp only [processLines, if_neg hend, hacc]
        exact ih values raw h k
      | some kv =>
        obtain ⟨k0, v0⟩ := kv
        simp only [processLines, if_neg hend, hacc]
        cases hp : parseDecimal v0 with
        | some q =>
          refine ih _ _ ?_ k
          intro k' hk'
          by_cases hkk : k' = k0
          · simp [updateMap, hkk]
          · simp only [updateMap, if_neg hkk] at hk' ⊢
            exact h k' hk'
        | none =>
          refine ih _ _ ?_ k
          intro k' hk'
          by_cases hkk : k' = k0
          · simp [updateMap, hkk]
          · simp only [updateMap, if_neg hkk]
            exact h k' hk'

/-- C4: in every snapshot the sampler constructs, the key set of the numeric
value map is a subset of the key set of the raw map. -/
theorem fetchStats_values_subset_raw (ts : ℚ) (lines : List Str) (k : Str) :
    ((fetchStatsModel ts lines).Values k).isSome →
      ((fetchStatsModel ts lines).Raw k).isSome := by
  intro hv
  have h0 : ∀ k' : Str, ((emptyMap : StrMap ℚ) k').isSome →
      ((emptyMap : StrMap Str) k').isSome := by
    intro k' h'
    simp [emptyMap] at h'
  exact processLines_values_sub_raw lines emptyMap emptyMap h0 k hv

/-- Witness for C4: the key `uptime` is numeric in a concrete snapshot, hence
present in its raw map. -/
theorem fetchStats_values_subset_raw_witness :
    ((fetchStatsModel 0 ["STAT uptime 5".toList, "END".toList]).Raw
      "uptime".toList).isSome :=
  fetchStats_values_subset_raw 0 ["STAT uptime 5".toList, "END".toList]
    "uptime".toList (by with_unfolding_all rfl)

/-- C5: a reset input (`r` or `R`) clears the previous snapshot to absent and
the rate table to empty, leaves the latest snapshot and the stored error
untouched, and is immediately followed by a re-render. -/
theorem reset_transition_spec (s : LoopState) (c : Char) (h : c = 'r' ∨ c = 'R') :
    handleEvent (Event.key (KeyInput.rune c)) s =
      StepResult.cont
        { currentStats := s.currentStats, prevStats := none, rates := emptyMap,
          lastErr := s.lastErr } true := by
  rcases h with rfl | rfl <;> rfl

/-- Witness for C5 at a concrete populated loop state and the lower-case
reset key. -/
theorem reset_transition_spec_witness :
    handleEvent (Event.key (KeyInput.rune 'r')) stateA =
      StepResult.cont
        { currentStats := stateA.currentStats, prevStats := none,
          rates := emptyMap, lastErr := stateA.lastErr } true :=
  reset_transition_spec stateA 'r' (Or.inl rfl)

/-- C6: on a timer tick, a sampler failure stores the error and leaves the
latest snapshot, previous snapshot and rate table untouched; a sampler
success clears the stored error, recomputes the rate table against the
previous snapshot when one exists (empty otherwise), and sets both previous
and latest snapshot to the new snapshot.  Both cases re-render. -/
theorem tick_transition_spec (s : LoopState) (e : Str) (snap : statsSnapshot) :
    (handleEvent (Event.tick (Except.error e)) s =
      StepResult.cont
        { currentStats := s.currentStats, prevStats := s.prevStats,
          rates := s.rates, lastErr := some e } true) ∧
    (s.prevStats = none →
      handleEvent (Event.tick (Except.ok snap)) s =
        StepResult.cont
          { currentStats := some snap, prevStats := some snap,
            rates := emptyMap, lastErr := none } true) ∧
    (∀ p, s.prevStats = some p →
      handleEvent (Event.tick (Except.ok snap)) s =
        StepResult.cont
          { currentStats := some snap, prevStats := some snap,
            rates := calculateRates (some snap) (some p), lastErr := none } true) := by
  refine ⟨rfl, ?_, ?_⟩
  · intro h
    simp only [handleEvent, h]
  · intro p h
    simp only [handleEvent, h]

/-- Witness for C6 at a concrete loop state holding a baseline snapshot. -/
theorem tick_transition_spec_witness :
    handleEvent (Event.tick (Except.ok snapA)) stateA =
      StepResult.cont
        { currentStats := some snapA, prevStats := some snapA,
          rates := calculateRates (some snapA) (some snapB), lastErr := none } true :=
  (tick_transition_spec stateA ['e'] snapA).2.2 snapB rfl

/-- Helper for C10: lines holding no accepted occurrence of key `k` before
the terminator leave both maps unchanged at `k`. -/
theorem processLines_no_key (lines : List Str) (k : Str) :
    lastValueFor lines k = none →
    ∀ values raw, (processLines lines (values, raw)).1 k = values k ∧
      (processLines lines (values, raw)).2 k = raw k := by
  induction lines with
  | nil => intro _ values raw; exact ⟨rfl, rfl⟩
  | cons line rest ih =>
    intro h values raw
    by_cases hend : line = endMarker
    · simp [processLines, hend]
    · simp only [lastValueFor, if_neg hend] at h
      cases hl : lastValueFor rest k with
      | some v => rw [hl] at h; exact absurd h (Option.noConfusion)
      | none =>
        rw [hl] at h
        cases hacc : acceptLine line with
        | none =>
          simp only [processLines, if_neg hend, hacc]
          exact ih hl values raw
        | some kv =>
          obtain ⟨k0, v0⟩ := kv
          rw [hacc] at h
          simp only at h
          have hk0 : k0 ≠ k := by
            intro hkk
            rw [if_pos hkk] at h
            exact absurd h (Option.noConfusion)
          simp only [processLines, if_neg hend, hacc]
          cases hp : parseDecimal v0 with
          | some q =>
            have hrest := ih hl (updateMap values k0 q) (updateMap raw k0 v0)
            rw [hrest.1, hrest.2]
            constructor
            · simp [updateMap, Ne.symm hk0]
            · simp [updateMap, Ne.symm hk0]
          | none =>
            have hrest := ih hl values (updateMap raw k0 v0)
            rw [hrest.1, hrest.2]
            exact ⟨rfl, by simp [updateMap, Ne.symm hk0]⟩

/-- Helper for C10: if the last accepted line for key `k` before the
terminator carries value `v`, processing leaves `v` in the raw map at `k`,
and its parsed number in the numeric map when it parses. -/
theorem processLines_last (lines : List Str) (k v : Str) :
    lastValueFor lines k = some v →
    ∀ values raw, (processLines lines (values, raw)).2 k = some v ∧
      (∀ q, parseDecimal v = some q → (processLines lines (values, raw)).1 k = some q) := by
  induction lines with
  | nil => intro h; exact absurd h (Option.noConfusion)
  | cons line rest ih =>
    intro h values raw
    by_cases hend : line = endMarker
    · simp only [lastValueFor, if_pos hend] at h
      exact absurd h (Option.noConfusion)
    · simp only [lastValueFor, if_neg hend] at h
      cases hl : lastValueFor rest k with
      | some v' =>
        rw [hl] at h
        simp only [Option.some.injEq] at h
        subst h
        cases hacc : acceptLine line with
        | none =>
          simp only [processLines, if_neg hend, hacc]
          exact ih hl values raw
        | some kv =>
          obtain ⟨k0, v0⟩ := kv
          simp only [processLines, if_neg hend, hacc]
          cases hp : parseDecimal v0 with
          | some q => exact ih hl _ _
          | none => exact ih hl _ _
      | none =>
        rw [hl] at h
        cases hacc : acceptLine line with
        | none => rw [hacc] at h; exact absurd h (Option.noConfusion)
        | some kv =>
          obtain ⟨k0, v0⟩ := kv
          rw [hacc] at h
          simp only at h
          by_cases hkk : k0 = k
          · rw [if_pos hkk] at h
            have hv0 : v0 = v := Option.some.inj h
            rw [hkk, hv0] at hacc
            simp only [processLines, if_neg hend, hacc]
            cases hp : parseDecimal v with
            | some q =>
              simp only [hp]
              have hrest := processLines_no_key rest k hl
                (updateMap values k q) (updateMap raw k v)
              rw [hrest.1, hrest.2]
              constructor
              · simp [updateMap]
              · intro q' hq'
                have : q = q' := Option.some.inj hq'
                rw [← this]
                simp [updateMap]
            | none =>
              simp only [hp]
              have hrest := processLines_no_key rest k hl
                values (updateMap raw k v)
              rw [hrest.1, hrest.2]
              constructor
              · simp [updateMap]
              · intro q' hq'
                exact Option.noConfusion hq'
          · rw [if_neg hkk] at h
            exact absurd h (Option.noConfusion)

/-- C10: when several accepted data lines share the same metric key, the
constructed snapshot retains the value from the last such line in the raw
map, and its parsed number in the numeric map when that value parses
numerically; earlier occurrences are overwritten. -/
theorem fetchStats_last_dup_wins (ts : ℚ) (lines : List Str) (k v : Str)
    (h : lastValueFor lines k = some v) :
    (fetchStatsModel ts lines).Raw k = some v ∧
    (∀ q, parseDecimal v = some q → (fetchStatsModel ts lines).Values k = some q) :=
  processLines_last lines k v h emptyMap emptyMap

/-- Witness for C10: two accepted lines for the key `a`; the snapshot holds
the second line's value in both maps. -/
theorem fetchStats_last_dup_wins_witness :
    (fetchStatsModel 0 ["STAT a 1".toList, "STAT a 2".toList]).Raw
        "a".toList = some "2".toList ∧
    (∀ q, parseDecimal "2".toList = some q →
      (fetchStatsModel 0 ["STAT a 1".toList, "STAT a 2".toList]).Values
        "a".toList = some q) :=
  fetchStats_last_dup_wins 0 ["STAT a 1".toList, "STAT a 2".toList]
    "a".toList "2".toList (by with_unfolding_all rfl)

/-- Helper for C7: the scaling loop divides by 1024 exactly as long as the
value is at least 1024 and unit names remain, so it lands on the least unit
index whose scaled value is below 1024 (or the top unit). -/
theorem scaleBytes_char (fuel : ℕ) : ∀ b : ℚ, 0 ≤ b →
    (scaleBytes b fuel).1 = b / 1024 ^ (scaleBytes b fuel).2 ∧
    (scaleBytes b fuel).2 ≤ fuel ∧
    ((scaleBytes b fuel).2 < fuel → (scaleBytes b fuel).1 < 1024) ∧
    (∀ j < (scaleBytes b fuel).2, 1024 ≤ b / 1024 ^ j) := by
  induction fuel with
  | zero =>
    intro b _
    refine ⟨by simp [scaleBytes], le_rfl, fun h => absurd h (lt_irrefl 0), ?_⟩
    intro j hj
    simp [scaleBytes] at hj
  | succ fuel ih =>
    intro b hb
    by_cases h : (1024 : ℚ) ≤ b
    · have hb' : (0 : ℚ) ≤ b / 1024 := by positivity
      obtain ⟨h1, h2, h3, h4⟩ := ih (b / 1024) hb'
      simp only [scaleBytes, if_pos h]
      refine ⟨?_, Nat.succ_le_succ h2, ?_, ?_⟩
      · rw [h1, div_div, ← pow_succ']
      · intro hlt
        exact h3 (Nat.lt_of_succ_lt_succ hlt)
      · intro j hj
        cases j with
        | zero => simpa using h
        | succ j' =>
          have hj' : j' < (scaleBytes (b / 1024) fuel).2 := Nat.lt_of_succ_lt_succ hj
          have := h4 j' hj'
          rwa [div_div, ← pow_succ'] at this
    · simp only [scaleBytes, if_neg h]
      refine ⟨by simp, Nat.zero_le _, fun _ => lt_of_not_le h, ?_⟩
      intro j hj
      exact absurd hj (Nat.not_lt_zero j)

/-- C7: `formatBytes` clamps negative input to zero, scales by factors of
1024 into the largest fitting unit of B, KB, MB, GB, TB, PB (the scaled
value is below 1024 unless the top unit is reached, and every skipped unit
would have left at least 1024), renders with zero decimals for B and one
decimal otherwise, and produces the expected strings on 512, 1024,
1.5·1024·1024 and −10. -/
theorem formatBytes_spec :
    (∀ b : ℚ, b < 0 → formatBytes b = formatBytes 0) ∧
    (∀ b : ℚ, 0 ≤ b →
      formatBytes b =
        formatFixed (b / 1024 ^ (scaleBytes b 5).2)
          (if (scaleBytes b 5).2 = 0 then 0 else 1) ++ ' ' :: unitName (scaleBytes b 5).2 ∧
      (scaleBytes b 5).2 ≤ 5 ∧
      ((scaleBytes b 5).2 < 5 → b / 1024 ^ (scaleBytes b 5).2 < 1024) ∧
      (∀ j < (scaleBytes b 5).2, 1024 ≤ b / 1024 ^ j)) ∧
    formatBytes 512 = "512 B".toList ∧
    formatBytes 1024 = "1.0 KB".toList ∧
    formatBytes (3 / 2 * 1024 * 1024) = "1.5 MB".toList ∧
    formatBytes (-10) = "0 B".toList := by
  refine ⟨?_, ?_, ?_, ?_, ?_, ?_⟩
  · intro b hb
    simp only [formatBytes, if_pos hb]
    norm_num
  · intro b hb
    obtain ⟨h1, h2, h3, h4⟩ := scaleBytes_char 5 b hb
    refine ⟨?_, h2, ?_, h4⟩
    · simp only [formatBytes, if_neg (not_lt.mpr hb)]
      rw [← h1]
    · intro hlt
      rw [← h1]
      exact h3 hlt
  · with_unfolding_all rfl
  · with_unfolding_all rfl
  · with_unfolding_all rfl
  · with_unfolding_all rfl

/-- Witness for C7: the negative input −10 is clamped to zero. -/
theorem formatBytes_spec_witness : formatBytes (-10) = formatBytes 0 :=
  formatBytes_spec.1 (-10) (by norm_num)

/-- Helper for C8: the day component is positive exactly when the uptime is
at least one whole day of 86400 seconds. -/
theorem uptimeDays_pos_iff (q : ℚ) : 0 < uptimeDays q ↔ 86400 ≤ q := by
  unfold uptimeDays uptimeNs
  constructor
  · intro hd
    have h1 : (86400000000000 : ℕ) ≤ (⌊q * 1000000000⌋).toNat := by
      by_contra hc
      push_neg at hc
      rw [Nat.div_eq_of_lt hc] at hd
      exact absurd hd (lt_irrefl 0)
    have h2 : (86400000000000 : ℤ) ≤ ⌊q * 1000000000⌋ := by
      rcases le_or_lt 0 (⌊q * 1000000000⌋) with hx | hx
      · rw [← Int.toNat_of_nonneg hx]
        exact_mod_cast h1
      · rw [Int.toNat_of_nonpos hx.le] at h1
        exact absurd h1 (by norm_num)
    have h3 : (86400000000000 : ℚ) ≤ q * 1000000000 := by
      exact_mod_cast Int.le_floor.mp h2
    linarith
  · intro h86
    have h3 : (86400000000000 : ℚ) ≤ q * 1000000000 := by linarith
    have h2 : (86400000000000 : ℤ) ≤ ⌊q * 1000000000⌋ :=
      Int.le_floor.mpr (by exact_mod_cast h3)
    have h1 : (86400000000000 : ℕ) ≤ (⌊q * 1000000000⌋).toNat := by
      have := Int.toNat_le_toNat h2
      simpa using this
    exact Nat.div_pos h1 (by norm_num)

/-- C8: `formatUptime` renders non-positive inputs as the fixed string `0s`,
and positive inputs as zero-padded `HHh MMm SSs` with an unpadded `Dd `
component in front exactly when the uptime spans at least one whole day; the
spec's three examples render as stated. -/
theorem formatUptime_spec :
    (∀ q : ℚ, q ≤ 0 → formatUptime q = "0s".toList) ∧
    (∀ q : ℚ, 0 < q →
      formatUptime q =
        (if 86400 ≤ q then natStr (uptimeDays q) ++ ['d', ' '] else []) ++
        pad2 (uptimeHours q) ++ ['h', ' '] ++
        pad2 (uptimeMinutes q) ++ ['m', ' '] ++
        pad2 (uptimeSeconds q) ++ ['s']) ∧
    formatUptime 0 = "0s".toList ∧
    formatUptime 3661 = "01h 01m 01s".toList ∧
    formatUptime 90061 = "1d 01h 01m 01s".toList := by
  refine ⟨?_, ?_, ?_, ?_, ?_⟩
  · intro q hq
    simp only [formatUptime, if_pos hq]
    rfl
  · intro q hq
    by_cases hd : (86400 : ℚ) ≤ q
    · rw [formatUptime, if_neg (not_le.mpr hq),
        if_pos ((uptimeDays_pos_iff q).mpr hd), if_pos hd]
    · rw [formatUptime, if_neg (not_le.mpr hq),
        if_neg (fun hc => hd ((uptimeDays_pos_iff q).mp hc)), if_neg hd]
  · with_unfolding_all rfl
  · with_unfolding_all rfl
  · with_unfolding_all rfl

/-- Witness for C8: a negative duration renders as the fixed zero string. -/
theorem formatUptime_spec_witness : formatUptime (-1) = "0s".toList :=
  formatUptime_spec.1 (-1) (by norm_num)

/-- Helper for C9: every write issued by the character loop stays on row `y`
and in a column in `[pos, width)` when started at a non-negative column. -/
theorem drawTextAux_bounds (w y : ℤ) (text : Str) : ∀ pos : ℤ, 0 ≤ pos →
    ∀ cw ∈ drawTextAux w y pos text, 0 ≤ cw.col ∧ cw.col < w ∧ cw.row = y := by
  induction text with
  | nil =>
    intro pos _ cw hcw
    simp [drawTextAux] at hcw
  | cons c cs ih =>
    intro pos hpos cw hcw
    simp only [drawTextAux] at hcw
    by_cases h : w ≤ pos
    · rw [if_pos h] at hcw
      simp at hcw
    · rw [if_neg h] at hcw
      rcases List.mem_cons.mp hcw with hcw | hcw
      · rw [hcw]
        exact ⟨hpos, lt_of_not_le h, rfl⟩
      · have hpos' : (0 : ℤ) ≤ pos + c.utf8Size := by positivity
        exact ih (pos + c.utf8Size) hpos' cw hcw
/-- C9: every cell write `drawText` performs from a non-negative start column
targets a column in `[0, width)` and the single row `y`, itself inside
`[0, height)`; text reaching the right edge is truncated there and never
continues on another row. -/
theorem drawText_bounds (w h x y : ℤ) (text : Str) (hx : 0 ≤ x) :
    ∀ cw ∈ drawText w h x y text,
      0 ≤ cw.col ∧ cw.col < w ∧ 0 ≤ cw.row ∧ cw.row < h ∧ cw.row = y := by
  intro cw hcw
  unfold drawText at hcw
  by_cases hy0 : y < 0
  · rw [if_pos hy0] at hcw
    simp at hcw
  · rw [if_neg hy0] at hcw
    by_cases hyh : h ≤ y
    · rw [if_pos hyh] at hcw
      simp at hcw
    · rw [if_neg hyh] at hcw
      obtain ⟨h1, h2, h3⟩ := drawTextAux_bounds w y text x hx cw hcw
      exact ⟨h1, h2, h3 ▸ le_of_not_lt hy0, h3 ▸ lt_of_not_le hyh, h3⟩

/-- Witness for C9: the first cell write of a concrete `drawText` call lies
inside a 10×5 surface on its target row. -/
theorem drawText_bounds_witness :
    0 ≤ (⟨0, 0⟩ : CellWrite).col ∧ (⟨0, 0⟩ : CellWrite).col < 10 ∧
    0 ≤ (⟨0, 0⟩ : CellWrite).row ∧ (⟨0, 0⟩ : CellWrite).row < 5 ∧
    (⟨0, 0⟩ : CellWrite).row = 0 :=
  drawText_bounds 10 5 0 0 "hi".toList (by norm_num) ⟨0, 0⟩ (by decide)

end Memtop
